import Mathlib

/-!
Shallow embedding of `datathon_etl_pipelines/mimic_cxr/prepare_mimic_cxr.py`.

The file under verification builds an Apache Beam pipeline that joins
MIMIC-CXR jpg images (from tar archives) with CheXpert label rows (from a
CSV), writes a BigQuery table, per-view TFRecords, and the raw jpg files.

Pure helpers (`ChexpertConverter.convert`, `parse_csv_row`,
`to_bigquery_json`, `to_tf_example`) are translated directly.  The imported
modules `enum_encodings` (`path_to_ids`, `ids_to_path`, `ID_NAMES`,
`LABEL_NAMES`, `LABEL_VALUES`, `VIEW_VALUES`) and
`mimic_cxr_tfrecord_schema` (`build_features`) are not part of the sources,
so they are modelled from the specification, as marked on each definition.
-/

namespace MimicCxr

/-- Dataset split segment of an image path, per the source docstring grammar
`(train|valid)/p([0-9]+)/s([0-9]+)/view([0-9]+)_(frontal|lateral|other).jpg`. -/
inductive SplitE : Type
  | train : SplitE
  | valid : SplitE
deriving DecidableEq, Repr

/-- View segment of an image path (frontal, lateral or other). -/
inductive ViewE : Type
  | frontal : ViewE
  | lateral : ViewE
  | other : ViewE
deriving DecidableEq, Repr

/-- Modelled from the spec: the enumeration code of a split value
(`enum_encodings` is not among the sources). -/
def SplitE.val : SplitE → Nat
  | .train => 0
  | .valid => 1

/-- Modelled from the spec: the enumeration code of a view value; the order
frontal, lateral, other is fixed by the partition unpacking
`frontal, lateral, _ = ... beam.Partition(...)` in the source. -/
def ViewE.val : ViewE → Nat
  | .frontal => 0
  | .lateral => 1
  | .other => 2

/-- The canonical text of a split segment. -/
def SplitE.chars : SplitE → List Char
  | .train => "train".data
  | .valid => "valid".data

/-- The canonical text of a view segment. -/
def ViewE.chars : ViewE → List Char
  | .frontal => "frontal".data
  | .lateral => "lateral".data
  | .other => "other".data

/-- Modelled from the spec: `VIEW_VALUES` of `enum_encodings`, the closed
view enumeration (its size gives the number of partitions). -/
def VIEW_VALUES : List String := ["frontal", "lateral", "other"]

/-- The composite key `(split, patient, study, image index, view)` decoded
from an image path: the `ids` tuple of the python source. -/
structure Key : Type where
  split : SplitE
  patient_id : Nat
  study_id : Nat
  image_index : Nat
  view : ViewE
deriving DecidableEq, Repr

/-- The key as the positional integer tuple the python code indexes into. -/
def idsTuple (k : Key) : List Nat :=
  [k.split.val, k.patient_id, k.study_id, k.image_index, k.view.val]

/-! ### Decimal rendering and parsing of the numeric path segments -/

/-- The character of a single decimal digit. -/
def digitChar (d : Nat) : Char := Char.ofNat (48 + d)

/-- The numeric value of a decimal digit character. -/
def digitVal (c : Char) : Nat := c.toNat - 48

/-- Fuelled decimal rendering (most significant digit first). -/
def natDigitsF : Nat → Nat → List Char
  | 0, _ => []
  | fuel + 1, n =>
    if n < 10 then [digitChar n]
    else natDigitsF fuel (n / 10) ++ [digitChar (n % 10)]

/-- Decimal rendering of a natural number, most significant digit first. -/
def natDigits (n : Nat) : List Char := natDigitsF (n + 1) n

/-- Value of a most-significant-first digit string. -/
def digitsToNat (cs : List Char) : Nat :=
  cs.foldl (fun a c => 10 * a + digitVal c) 0

theorem natDigitsF_congr : ∀ f g n, n < f → n < g → natDigitsF f n = natDigitsF g n := by
  intro f
  induction f with
  | zero => intro g n h; omega
  | succ f ih =>
    intro g n hf hg
    match g with
    | 0 => omega
    | g + 1 =>
      simp only [natDigitsF]
      by_cases h10 : n < 10
      · simp [h10]
      · have hdiv : n / 10 < n := Nat.div_lt_self (by omega) (by omega)
        simp only [h10, if_false]
        rw [ih g (n / 10) (by omega) (by omega)]

theorem natDigits_eq (n : Nat) :
    natDigits n = if n < 10 then [digitChar n]
      else natDigits (n / 10) ++ [digitChar (n % 10)] := by
  have hstep : natDigitsF (n + 1) n = if n < 10 then [digitChar n]
      else natDigitsF n (n / 10) ++ [digitChar (n % 10)] := rfl
  unfold natDigits
  rw [hstep]
  by_cases h10 : n < 10
  · simp [h10]
  · have hdiv : n / 10 < n := Nat.div_lt_self (by omega) (by omega)
    simp only [h10, if_false]
    rw [natDigitsF_congr n (n / 10 + 1) (n / 10) (by omega) (by omega)]

theorem digitChar_isDigit {d : Nat} (h : d < 10) : (digitChar d).isDigit = true := by
  interval_cases d <;> decide

theorem digitVal_digitChar {d : Nat} (h : d < 10) : digitVal (digitChar d) = d := by
  interval_cases d <;> decide

theorem natDigits_ne_nil (n : Nat) : natDigits n ≠ [] := by
  rw [natDigits_eq]
  by_cases h : n < 10 <;> simp [h]

theorem natDigits_isDigit (n : Nat) : ∀ c ∈ natDigits n, c.isDigit = true := by
  induction n using Nat.strong_induction_on with
  | _ n ih =>
    rw [natDigits_eq]
    by_cases h10 : n < 10
    · simp only [h10, if_true, List.mem_singleton]
      rintro c rfl
      exact digitChar_isDigit h10
    · have hdiv : n / 10 < n := Nat.div_lt_self (by omega) (by omega)
      simp only [h10, if_false, List.mem_append, List.mem_singleton]
      rintro c (hc | rfl)
      · exact ih _ hdiv c hc
      · exact digitChar_isDigit (Nat.mod_lt _ (by omega))

theorem digitsToNat_append_singleton (cs : List Char) (c : Char) :
    digitsToNat (cs ++ [c]) = 10 * digitsToNat cs + digitVal c := by
  unfold digitsToNat
  rw [List.foldl_append]
  rfl

theorem digitsToNat_natDigits (n : Nat) : digitsToNat (natDigits n) = n := by
  induction n using Nat.strong_induction_on with
  | _ n ih =>
    rw [natDigits_eq]
    by_cases h10 : n < 10
    · simp only [h10, if_true]
      show 10 * 0 + digitVal (digitChar n) = n
      rw [digitVal_digitChar h10]
      omega
    · have hdiv : n / 10 < n := Nat.div_lt_self (by omega) (by omega)
      simp only [h10, if_false]
      rw [digitsToNat_append_singleton, ih _ hdiv,
        digitVal_digitChar (Nat.mod_lt _ (by omega))]
      omega

theorem isDigit_toNat {c : Char} (h : c.isDigit = true) :
    48 ≤ c.toNat ∧ c.toNat ≤ 57 := by
  simp only [Char.isDigit, Bool.and_eq_true, decide_eq_true_eq] at h
  obtain ⟨h1, h2⟩ := h
  simp only [GE.ge, UInt32.le_def] at h1 h2
  exact ⟨h1, h2⟩

theorem digitVal_lt_ten {c : Char} (h : c.isDigit = true) : digitVal c < 10 := by
  have := isDigit_toNat h
  unfold digitVal
  omega

theorem digitChar_digitVal {c : Char} (h : c.isDigit = true) :
    digitChar (digitVal c) = c := by
  obtain ⟨h1, h2⟩ := isDigit_toNat h
  unfold digitChar digitVal
  have hn : 48 + (c.toNat - 48) = c.toNat := by omega
  rw [hn, Char.ofNat_toNat]

theorem eq_zero_char_of_digitVal_eq_zero {c : Char} (h : c.isDigit = true)
    (hv : digitVal c = 0) : c = '0' := by
  obtain ⟨h1, h2⟩ := isDigit_toNat h
  have hn : c.toNat = 48 := by unfold digitVal at hv; omega
  have := Char.ofNat_toNat c
  rw [hn] at this
  exact this.symm

theorem digitsToNat_foldl_eq_zero :
    ∀ (ds : List Char) (a : Nat),
      ds.foldl (fun a c => 10 * a + digitVal c) a = 0 →
      a = 0 ∧ ∀ c ∈ ds, digitVal c = 0 := by
  intro ds
  induction ds with
  | nil => intro a h; exact ⟨h, by simp⟩
  | cons c cs ih =>
    intro a h
    rw [List.foldl_cons] at h
    obtain ⟨ha, hall⟩ := ih _ h
    refine ⟨by omega, ?_⟩
    intro d hd
    rcases List.mem_cons.mp hd with rfl | hd
    · omega
    · exact hall d hd

theorem digitsToNat_pos {ds : List Char} (hne : ds ≠ [])
    (hdig : ∀ c ∈ ds, c.isDigit = true) (hlead : ds.head? ≠ some '0') :
    0 < digitsToNat ds := by
  rcases Nat.eq_zero_or_pos (digitsToNat ds) with hz | hp
  · exfalso
    obtain ⟨-, hall⟩ := digitsToNat_foldl_eq_zero ds 0 hz
    match ds, hne with
    | c :: cs, _ =>
      have hc : c = '0' :=
        eq_zero_char_of_digitVal_eq_zero (hdig c (by simp)) (hall c (by simp))
      exact hlead (by rw [hc]; rfl)
  · exact hp

/-- A most-significant-first digit run is canonical when it has no leading
zero (except for the single digit `0` itself). -/
def noLeadZero (ds : List Char) : Bool :=
  ds == ['0'] || !(ds.headD '0' == '0')

theorem natDigits_digitsToNat :
    ∀ ds : List Char, ds ≠ [] → (∀ c ∈ ds, c.isDigit = true) →
      noLeadZero ds = true → natDigits (digitsToNat ds) = ds := by
  intro ds
  induction ds using List.reverseRecOn with
  | nil => intro h; exact absurd rfl h
  | append_singleton init c ih =>
    intro hne hdig hlead
    have hc : c.isDigit = true := hdig c (by simp)
    cases init with
    | nil =>
      show natDigits (digitsToNat [c]) = [c]
      have hval : digitsToNat [c] = digitVal c := by
        unfold digitsToNat
        simp
      rw [hval, natDigits_eq, if_pos (digitVal_lt_ten hc), digitChar_digitVal hc]
    | cons x xs =>
      have hdigi : ∀ y ∈ x :: xs, y.isDigit = true := by
        intro y hy
        apply hdig y
        rcases List.mem_cons.mp hy with rfl | hy
        · simp
        · simp [hy]
      have hx0 : x ≠ '0' := by
        simp only [noLeadZero, List.cons_append, List.headD_cons, Bool.or_eq_true,
          beq_iff_eq, Bool.not_eq_true', beq_eq_false_iff_ne, List.cons.injEq,
          ne_eq] at hlead
        rcases hlead with ⟨h1, h2⟩ | h
        · exact absurd h2 (by simp)
        · exact h
      have hlead' : noLeadZero (x :: xs) = true := by
        simp [noLeadZero, hx0]
      have hhead' : (x :: xs).head? ≠ some '0' := by
        simp [hx0]
      have hpos : 0 < digitsToNat (x :: xs) :=
        digitsToNat_pos (by simp) hdigi hhead'
      rw [digitsToNat_append_singleton, natDigits_eq]
      have hvc : digitVal c < 10 := digitVal_lt_ten hc
      rw [if_neg (by omega)]
      have hdiv : (10 * digitsToNat (x :: xs) + digitVal c) / 10
          = digitsToNat (x :: xs) := by omega
      have hmod : (10 * digitsToNat (x :: xs) + digitVal c) % 10 = digitVal c := by
        omega
      rw [hdiv, hmod, ih (by simp) hdigi hlead', digitChar_digitVal hc]

/-! ### The identifier codec, modelled from the spec
(`enum_encodings.path_to_ids` / `ids_to_path` are not among the sources; the
grammar is `{split}/p{patient_id}/s{study_id}/view{image_index}_{view}.jpg`,
matching the regex in the source docstring). -/

/-- Strip an expected literal from the front of the input, or fail. -/
def stripLit : List Char → List Char → Option (List Char)
  | [], cs => some cs
  | _ :: _, [] => none
  | l :: ls, c :: cs => if c = l then stripLit ls cs else none

/-- Split the longest leading run of decimal digits from the input. -/
def takeDigits : List Char → List Char × List Char
  | [] => ([], [])
  | c :: cs =>
    if c.isDigit then
      let (ds, rest) := takeDigits cs
      (c :: ds, rest)
    else ([], c :: cs)

/-- The first character, if any, is not a digit. -/
def headNotDigit : List Char → Bool
  | [] => true
  | c :: _ => !c.isDigit

theorem stripLit_self : ∀ (ls rest : List Char), stripLit ls (ls ++ rest) = some rest := by
  intro ls
  induction ls with
  | nil => intro rest; rfl
  | cons l ls ih =>
    intro rest
    simp only [List.cons_append, stripLit, if_pos rfl]
    exact ih rest

theorem stripLit_sound : ∀ (ls cs rest : List Char),
    stripLit ls cs = some rest → cs = ls ++ rest := by
  intro ls
  induction ls with
  | nil =>
    intro cs rest h
    simp only [stripLit, Option.some.injEq] at h
    simp [h]
  | cons l ls ih =>
    intro cs rest h
    match cs with
    | [] => exact absurd h (by simp [stripLit])
    | c :: cs =>
      simp only [stripLit] at h
      by_cases hc : c = l
      · rw [if_pos hc] at h
        subst hc
        simp [ih cs rest h]
      · rw [if_neg hc] at h
        exact absurd h (by simp)

theorem takeDigits_append : ∀ (ds rest : List Char),
    (∀ c ∈ ds, c.isDigit = true) → headNotDigit rest = true →
    takeDigits (ds ++ rest) = (ds, rest) := by
  intro ds
  induction ds with
  | nil =>
    intro rest hds hrest
    match rest with
    | [] => rfl
    | c :: rest =>
      simp only [headNotDigit, Bool.not_eq_true'] at hrest
      simp [takeDigits, hrest]
  | cons d ds ih =>
    intro rest hds hrest
    have hd : d.isDigit = true := hds d (by simp)
    have hrec : takeDigits (ds ++ rest) = (ds, rest) :=
      ih rest (fun c hc => hds c (by simp [hc])) hrest
    simp only [List.cons_append, takeDigits, hd, if_true]
    rw [show ds.append rest = ds ++ rest from rfl, hrec]

theorem takeDigits_sound : ∀ (cs ds rest : List Char),
    takeDigits cs = (ds, rest) →
    cs = ds ++ rest ∧ (∀ c ∈ ds, c.isDigit = true) ∧ headNotDigit rest = true := by
  intro cs
  induction cs with
  | nil =>
    intro ds rest h
    simp only [takeDigits, Prod.mk.injEq] at h
    obtain ⟨h1, h2⟩ := h
    subst h1
    subst h2
    exact ⟨rfl, by simp, rfl⟩
  | cons c cs ih =>
    intro ds rest h
    simp only [takeDigits] at h
    by_cases hc : c.isDigit
    · rw [if_pos hc] at h
      rcases htd : takeDigits cs with ⟨ds', rest'⟩
      rw [htd] at h
      simp only [Prod.mk.injEq] at h
      obtain ⟨h1, h2⟩ := h
      obtain ⟨hcs, hdig, hnd⟩ := ih ds' rest' htd
      subst h1
      subst h2
      refine ⟨by simp [hcs], ?_, hnd⟩
      intro y hy
      rcases List.mem_cons.mp hy with rfl | hy
      · exact hc
      · exact hdig y hy
    · rw [if_neg hc] at h
      simp only [Prod.mk.injEq] at h
      obtain ⟨h1, h2⟩ := h
      subst h1
      subst h2
      refine ⟨rfl, by simp, ?_⟩
      simp only [headNotDigit, Bool.not_eq_true']
      exact Bool.not_eq_true _ ▸ eq_false_of_ne_true hc

/-- Parse the leading split segment (`train` or `valid`). -/
def parseSplitSeg (cs : List Char) : Option (SplitE × List Char) :=
  match stripLit "train".data cs with
  | some rest => some (.train, rest)
  | none =>
    match stripLit "valid".data cs with
    | some rest => some (.valid, rest)
    | none => none

/-- Parse the view segment (`frontal`, `lateral` or `other`). -/
def parseViewSeg (cs : List Char) : Option (ViewE × List Char) :=
  match stripLit "frontal".data cs with
  | some rest => some (.frontal, rest)
  | none =>
    match stripLit "lateral".data cs with
    | some rest => some (.lateral, rest)
    | none =>
      match stripLit "other".data cs with
      | some rest => some (.other, rest)
      | none => none

/-- Raw parse of a canonical path: split, the three digit runs, and view. -/
structure RawPath : Type where
  split : SplitE
  d1 : List Char
  d2 : List Char
  d3 : List Char
  view : ViewE
deriving DecidableEq, Repr

/-- Reject an empty digit run (the grammar requires at least one digit). -/
def takeDigitsNE (cs : List Char) : Option (List Char × List Char) :=
  if (takeDigits cs).1.isEmpty then none else some (takeDigits cs)

/-- Parse the whole path grammar, retaining the raw digit runs. -/
def parsePath (cs : List Char) : Option RawPath :=
  (parseSplitSeg cs).bind fun spcs =>
    (stripLit "/p".data spcs.2).bind fun cs2 =>
      (takeDigitsNE cs2).bind fun d1cs =>
        (stripLit "/s".data d1cs.2).bind fun cs4 =>
          (takeDigitsNE cs4).bind fun d2cs =>
            (stripLit "/view".data d2cs.2).bind fun cs6 =>
              (takeDigitsNE cs6).bind fun d3cs =>
                (stripLit "_".data d3cs.2).bind fun cs8 =>
                  (parseViewSeg cs8).bind fun vwcs =>
                    (stripLit ".jpg".data vwcs.2).bind fun cs10 =>
                      if cs10.isEmpty then
                        some ⟨spcs.1, d1cs.1, d2cs.1, d3cs.1, vwcs.1⟩
                      else none

/-- Modelled from the spec: `enum_encodings.path_to_ids`, decoding a path of
the grammar `{split}/p{patient_id}/s{study_id}/view{image_index}_{view}.jpg`
into the composite key, failing on any malformed path. -/
def path_to_ids (p : String) : Except String Key :=
  match parsePath p.data with
  | some rp =>
    .ok ⟨rp.split, digitsToNat rp.d1, digitsToNat rp.d2, digitsToNat rp.d3, rp.view⟩
  | none => .error ("malformed path: " ++ p)

/-- The character list of the canonical path of a key. -/
def pathChars (k : Key) : List Char :=
  k.split.chars ++ "/p".data ++ natDigits k.patient_id ++ "/s".data
    ++ natDigits k.study_id ++ "/view".data ++ natDigits k.image_index
    ++ "_".data ++ k.view.chars ++ ".jpg".data

/-- Modelled from the spec: `enum_encodings.ids_to_path`, rendering the
canonical path of a composite key (the exact inverse of `path_to_ids`). -/
def ids_to_path (k : Key) : String := String.mk (pathChars k)

/-- A well-formed canonical path: one matching the grammar whose numeric
segments carry no leading zeros (the canonical decimal rendering). -/
def isCanonicalPath (p : String) : Bool :=
  match parsePath p.data with
  | some rp => noLeadZero rp.d1 && noLeadZero rp.d2 && noLeadZero rp.d3
  | none => false

theorem natDigits_isEmpty (n : Nat) : (natDigits n).isEmpty = false := by
  rcases h : natDigits n with _ | ⟨c, cs⟩
  · exact absurd h (natDigits_ne_nil n)
  · rfl

theorem parseSplitSeg_chars (sp : SplitE) (rest : List Char) :
    parseSplitSeg (sp.chars ++ rest) = some (sp, rest) := by
  cases sp <;> rfl

theorem parseViewSeg_chars (vw : ViewE) (rest : List Char) :
    parseViewSeg (vw.chars ++ rest) = some (vw, rest) := by
  cases vw <;> rfl

theorem parseSplitSeg_sound {cs : List Char} {sp : SplitE} {rest : List Char}
    (h : parseSplitSeg cs = some (sp, rest)) : cs = sp.chars ++ rest := by
  unfold parseSplitSeg at h
  rcases h1 : stripLit "train".data cs with _ | r
  · rw [h1] at h
    rcases h2 : stripLit "valid".data cs with _ | r
    · rw [h2] at h
      exact absurd h (by simp)
    · rw [h2] at h
      simp only [Option.some.injEq, Prod.mk.injEq] at h
      obtain ⟨rfl, rfl⟩ := h
      exact stripLit_sound _ _ _ h2
  · rw [h1] at h
    simp only [Option.some.injEq, Prod.mk.injEq] at h
    obtain ⟨rfl, rfl⟩ := h
    exact stripLit_sound _ _ _ h1

theorem parseViewSeg_sound {cs : List Char} {vw : ViewE} {rest : List Char}
    (h : parseViewSeg cs = some (vw, rest)) : cs = vw.chars ++ rest := by
  unfold parseViewSeg at h
  rcases h1 : stripLit "frontal".data cs with _ | r
  · rw [h1] at h
    rcases h2 : stripLit "lateral".data cs with _ | r
    · rw [h2] at h
      rcases h3 : stripLit "other".data cs with _ | r
      · rw [h3] at h
        exact absurd h (by simp)
      · rw [h3] at h
        simp only [Option.some.injEq, Prod.mk.injEq] at h
        obtain ⟨rfl, rfl⟩ := h
        exact stripLit_sound _ _ _ h3
    · rw [h2] at h
      simp only [Option.some.injEq, Prod.mk.injEq] at h
      obtain ⟨rfl, rfl⟩ := h
      exact stripLit_sound _ _ _ h2
  · rw [h1] at h
    simp only [Option.some.injEq, Prod.mk.injEq] at h
    obtain ⟨rfl, rfl⟩ := h
    exact stripLit_sound _ _ _ h1

theorem takeDigitsNE_natDigits (n : Nat) (rest : List Char)
    (h : headNotDigit rest = true) :
    takeDigitsNE (natDigits n ++ rest) = some (natDigits n, rest) := by
  unfold takeDigitsNE
  rw [takeDigits_append _ _ (natDigits_isDigit n) h]
  simp [natDigits_isEmpty]

theorem takeDigitsNE_sound {cs ds rest : List Char}
    (h : takeDigitsNE cs = some (ds, rest)) :
    cs = ds ++ rest ∧ ds ≠ [] ∧ ∀ c ∈ ds, c.isDigit = true := by
  unfold takeDigitsNE at h
  rcases htd : takeDigits cs with ⟨ds', rest'⟩
  rw [htd] at h
  by_cases he : ds'.isEmpty
  · rw [if_pos he] at h
    exact absurd h (by simp)
  · rw [if_neg he] at h
    simp only [Option.some.injEq, Prod.mk.injEq] at h
    obtain ⟨rfl, rfl⟩ := h
    obtain ⟨hcs, hdig, -⟩ := takeDigits_sound _ _ _ htd
    refine ⟨hcs, ?_, hdig⟩
    intro hcon
    rw [hcon] at he
    exact he rfl

theorem parsePath_pathChars (k : Key) :
    parsePath (pathChars k) =
      some ⟨k.split, natDigits k.patient_id, natDigits k.study_id,
        natDigits k.image_index, k.view⟩ := by
  obtain ⟨sp, pid, sid, idx, vw⟩ := k
  unfold pathChars parsePath
  simp only [List.append_assoc]
  rw [parseSplitSeg_chars]
  simp only [Option.some_bind]
  rw [stripLit_self]
  simp only [Option.some_bind]
  rw [takeDigitsNE_natDigits _ _ (by rfl)]
  simp only [Option.some_bind]
  rw [stripLit_self]
  simp only [Option.some_bind]
  rw [takeDigitsNE_natDigits _ _ (by rfl)]
  simp only [Option.some_bind]
  rw [stripLit_self]
  simp only [Option.some_bind]
  rw [takeDigitsNE_natDigits _ _ (by rfl)]
  simp only [Option.some_bind]
  rw [stripLit_self]
  simp only [Option.some_bind]
  rw [parseViewSeg_chars]
  simp only [Option.some_bind]
  rfl

/-- `path_to_ids` decodes the canonical path of every key back to that key
(the key-direction round trip). -/
theorem path_to_ids_ids_to_path (k : Key) : path_to_ids (ids_to_path k) = .ok k := by
  unfold path_to_ids ids_to_path
  rw [show (String.mk (pathChars k)).data = pathChars k from rfl]
  rw [parsePath_pathChars]
  simp only [digitsToNat_natDigits]

theorem parsePath_sound {cs : List Char} {rp : RawPath} (h : parsePath cs = some rp) :
    cs = rp.split.chars ++ "/p".data ++ rp.d1 ++ "/s".data ++ rp.d2
        ++ "/view".data ++ rp.d3 ++ "_".data ++ rp.view.chars ++ ".jpg".data ∧
      (rp.d1 ≠ [] ∧ ∀ c ∈ rp.d1, c.isDigit = true) ∧
      (rp.d2 ≠ [] ∧ ∀ c ∈ rp.d2, c.isDigit = true) ∧
      (rp.d3 ≠ [] ∧ ∀ c ∈ rp.d3, c.isDigit = true) := by
  unfold parsePath at h
  rcases h1 : parseSplitSeg cs with _ | ⟨sp, cs1⟩
  · rw [h1] at h
    exact absurd h (by simp)
  rw [h1] at h
  simp only [Option.some_bind] at h
  rcases h2 : stripLit "/p".data cs1 with _ | cs2
  · rw [h2] at h
    exact absurd h (by simp)
  rw [h2] at h
  simp only [Option.some_bind] at h
  rcases h3 : takeDigitsNE cs2 with _ | ⟨d1, cs3⟩
  · rw [h3] at h
    exact absurd h (by simp)
  rw [h3] at h
  simp only [Option.some_bind] at h
  rcases h4 : stripLit "/s".data cs3 with _ | cs4
  · rw [h4] at h
    exact absurd h (by simp)
  rw [h4] at h
  simp only [Option.some_bind] at h
  rcases h5 : takeDigitsNE cs4 with _ | ⟨d2, cs5⟩
  · rw [h5] at h
    exact absurd h (by simp)
  rw [h5] at h
  simp only [Option.some_bind] at h
  rcases h6 : stripLit "/view".data cs5 with _ | cs6
  · rw [h6] at h
    exact absurd h (by simp)
  rw [h6] at h
  simp only [Option.some_bind] at h
  rcases h7 : takeDigitsNE cs6 with _ | ⟨d3, cs7⟩
  · rw [h7] at h
    exact absurd h (by simp)
  rw [h7] at h
  simp only [Option.some_bind] at h
  rcases h8 : stripLit "_".data cs7 with _ | cs8
  · rw [h8] at h
    exact absurd h (by simp)
  rw [h8] at h
  simp only [Option.some_bind] at h
  rcases h9 : parseViewSeg cs8 with _ | ⟨vw, cs9⟩
  · rw [h9] at h
    exact absurd h (by simp)
  rw [h9] at h
  simp only [Option.some_bind] at h
  rcases h10 : stripLit ".jpg".data cs9 with _ | cs10
  · rw [h10] at h
    exact absurd h (by simp)
  rw [h10] at h
  simp only [Option.some_bind] at h
  rcases he4 : cs10.isEmpty with _ | _
  · rw [he4] at h
    simp only [Bool.false_eq_true, if_false] at h
    exact absurd h (by simp)
  rw [he4] at h
  simp only [if_true, Option.some.injEq] at h
  subst h
  have hcs10 : cs10 = [] := by
    rcases cs10 with _ | _
    · rfl
    · simp at he4
  subst hcs10
  obtain ⟨hcs2, hne1, hd1dig⟩ := takeDigitsNE_sound h3
  obtain ⟨hcs4, hne2, hd2dig⟩ := takeDigitsNE_sound h5
  obtain ⟨hcs6, hne3, hd3dig⟩ := takeDigitsNE_sound h7
  refine ⟨?_, ⟨hne1, hd1dig⟩, ⟨hne2, hd2dig⟩, ⟨hne3, hd3dig⟩⟩
  rw [parseSplitSeg_sound h1, stripLit_sound _ _ _ h2, hcs2,
    stripLit_sound _ _ _ h4, hcs4, stripLit_sound _ _ _ h6, hcs6,
    stripLit_sound _ _ _ h8, parseViewSeg_sound h9, stripLit_sound _ _ _ h10]
  simp [List.append_assoc]

/-- Every well-formed canonical path decodes, and re-encoding the decoded
key reproduces the path (the path-direction round trip). -/
theorem ids_to_path_path_to_ids {p : String} (h : isCanonicalPath p = true) :
    ∃ k, path_to_ids p = .ok k ∧ ids_to_path k = p := by
  unfold isCanonicalPath at h
  rcases hp : parsePath p.data with _ | rp
  · rw [hp] at h
    exact absurd h (by simp)
  rw [hp] at h
  simp only [Bool.and_eq_true] at h
  obtain ⟨⟨hc1, hc2⟩, hc3⟩ := h
  obtain ⟨heq, ⟨hne1, hdig1⟩, ⟨hne2, hdig2⟩, ⟨hne3, hdig3⟩⟩ := parsePath_sound hp
  refine ⟨⟨rp.split, digitsToNat rp.d1, digitsToNat rp.d2, digitsToNat rp.d3, rp.view⟩,
    ?_, ?_⟩
  · unfold path_to_ids
    rw [hp]
  · unfold ids_to_path
    have hchars : pathChars ⟨rp.split, digitsToNat rp.d1, digitsToNat rp.d2,
        digitsToNat rp.d3, rp.view⟩ = p.data := by
      unfold pathChars
      simp only
      rw [natDigits_digitsToNat _ hne1 hdig1 hc1,
        natDigits_digitsToNat _ hne2 hdig2 hc2,
        natDigits_digitsToNat _ hne3 hdig3 hc3]
      exact heq.symm
    rw [hchars]

/-! ### The CheXpert label converter (`ChexpertConverter` in the source) -/

/-- Modelled from the spec: `LABEL_VALUES`, the closed label-code
enumeration {not_mentioned, positive, uncertain, negative}. -/
def LABEL_VALUES_not_mentioned : Nat := 0

/-- Modelled from the spec: the `positive` label code. -/
def LABEL_VALUES_positive : Nat := 1

/-- Modelled from the spec: the `uncertain` label code. -/
def LABEL_VALUES_uncertain : Nat := 2

/-- Modelled from the spec: the `negative` label code. -/
def LABEL_VALUES_negative : Nat := 3

/-- The literal dictionary `chexpert_code_to_index` of the source. -/
def chexpert_code_to_index (s : String) : Option Nat :=
  if s = "" then some LABEL_VALUES_not_mentioned
  else if s = "1.0" then some LABEL_VALUES_positive
  else if s = "-1.0" then some LABEL_VALUES_uncertain
  else if s = "0.0" then some LABEL_VALUES_negative
  else none

/-- `ChexpertConverter.convert`: look the raw code up, raising
`ValueError('unrecognized chexpert encoding: ...')` when absent. -/
def ChexpertConverter.convert (s : String) : Except String Nat :=
  match chexpert_code_to_index s with
  | none => .error ("unrecognized chexpert encoding: " ++ s)
  | some i => .ok i

/-! ### CSV splitting and `parse_csv_row` -/

/-- One step of a CSV line splitter modelling the default dialect of the
python `csv` module: fields separated by commas, a field may be wrapped in
double quotes, a doubled quote inside a quoted field is a literal quote.
`inQ` says whether we are inside a quoted field; `acc` holds the current
field reversed. -/
def splitCSVRec : Bool → List Char → List Char → List String
  | _, acc, [] => [String.mk acc.reverse]
  | false, acc, c :: cs =>
    if c = ',' then String.mk acc.reverse :: splitCSVRec false [] cs
    else if c = '"' && acc.isEmpty then splitCSVRec true acc cs
    else splitCSVRec false (c :: acc) cs
  | true, acc, '"' :: '"' :: cs => splitCSVRec true ('"' :: acc) cs
  | true, acc, '"' :: cs => splitCSVRec false acc cs
  | true, acc, c :: cs => splitCSVRec true (c :: acc) cs

/-- Split one CSV line into its fields (`next(csv.reader([line]))`; an empty
line yields no fields, as in python). -/
def splitCSVLine (line : String) : List String :=
  if line = "" then [] else splitCSVRec false [] line.data

/-- `parse_csv_row`: split the line, decode the key from the path column
(`row[0]`), skip the informational view column (`row[1]`), and convert every
remaining column through `ChexpertConverter.convert`. -/
def parse_csv_row (line : String) : Except String (Key × List Nat) :=
  match (splitCSVLine line).head? with
  | none => .error "list index out of range"
  | some p => do
    let ids ← path_to_ids p
    let labels ← ((splitCSVLine line).drop 2).mapM ChexpertConverter.convert
    pure (ids, labels)

/-! ### BigQuery rows (`to_bigquery_json`) -/

/-- A BigQuery cell: the ids and labels are integers, the path a string. -/
inductive BqVal : Type
  | i : Nat → BqVal
  | s : String → BqVal
deriving DecidableEq, Repr

/-- Python-dict insertion: replace the value in place if the field exists,
else append (python 3.7+ dict ordering semantics). -/
def dictInsert : List (String × BqVal) → String → BqVal → List (String × BqVal)
  | [], k, v => [(k, v)]
  | (k', v') :: d, k, v =>
    if k' = k then (k', v) :: d else (k', v') :: dictInsert d k v

/-- Build a python dict from a list of bindings, in order. -/
def dictOfList (l : List (String × BqVal)) : List (String × BqVal) :=
  l.foldl (fun d kv => dictInsert d kv.1 kv.2) []

/-- Look a field up in a python dict. -/
def dictLookup : List (String × BqVal) → String → Option BqVal
  | [], _ => none
  | (k', v) :: d, k => if k' = k then some v else dictLookup d k

/-- Modelled from the spec: `ID_NAMES`, the field names of the composite key
in tuple order (split, patient, study, image index, view). -/
def ID_NAMES : List String :=
  ["split", "patient_id", "study_id", "image_index", "view"]

/-- `LABEL_NAMES`: the 14 CheXpert category columns, as listed in the source
docstring (columns after `path` and `view`). -/
def LABEL_NAMES : List String :=
  ["No Finding", "Enlarged Cardiomediastinum", "Cardiomegaly",
   "Airspace Opacity", "Lung Lesion", "Edema", "Consolidation", "Pneumonia",
   "Atelectasis", "Pneumothorax", "Pleural Effusion", "Pleural Other",
   "Fracture", "Support Devices"]

/-- `to_bigquery_json`: the label columns zipped with `LABEL_NAMES`, updated
with the key fields zipped with `ID_NAMES`, plus the canonical `path`. -/
def to_bigquery_json (ids : Key) (row : List Nat) : List (String × BqVal) :=
  let bq := dictOfList ((LABEL_NAMES.zip row).map fun p => (p.1, BqVal.i p.2))
  let bq := (ID_NAMES.zip (idsTuple ids)).foldl
    (fun d kv => dictInsert d kv.1 (BqVal.i kv.2)) bq
  dictInsert bq "path" (BqVal.s (ids_to_path ids))

/-! ### The training-record builder (`to_tf_example`) -/

/-- The feature map of one training record: the raw image bytes, the key
fields and the label vector under their feature names. -/
structure Features : Type where
  jpg_bytes : List Nat
  ids : Key
  labels : List Nat
deriving DecidableEq, Repr

/-- Modelled from the spec: `build_features` of `mimic_cxr_tfrecord_schema`
(not among the sources); per the spec it fails with a `RecordBuildError`
when the image byte buffer is empty or the label vector length differs from
the fixed category count. -/
def build_features (jpg_bytes : List Nat) (ids : Key) (labels : List Nat) :
    Except String Features :=
  if jpg_bytes.isEmpty then .error "RecordBuildError: empty jpg bytes"
  else if labels.length ≠ LABEL_NAMES.length then
    .error "RecordBuildError: label length mismatch"
  else .ok ⟨jpg_bytes, ids, labels⟩

/-- A `tf.train.Example` wrapping the built features. -/
structure TfExample : Type where
  features : Features
deriving DecidableEq, Repr

/-- The cardinality-error message of `to_tf_example`:
`'{} JPG files matched to {} rows for {}'.format(...)`. -/
def joinErrorMsg (nJpgs nRows : Nat) (path : String) : String :=
  Nat.repr nJpgs ++ " JPG files matched to " ++ Nat.repr nRows ++ " rows for "
    ++ path

/-- `to_tf_example`: check the (1,1) join cardinality, then build the
example from the single jpg and the single label row. -/
def to_tf_example (element : Key × List (List Nat) × List (List Nat)) :
    Except String TfExample :=
  let ids := element.1
  let jpgs := element.2.1
  let rows := element.2.2
  if jpgs.length ≠ 1 ∨ rows.length ≠ 1 then
    .error (joinErrorMsg jpgs.length rows.length (ids_to_path ids))
  else
    match build_features (jpgs.headD []) ids (rows.headD []) with
    | .error e => .error e
    | .ok f => .ok ⟨f⟩

/-! ### The pipeline (`build_and_run_pipeline`) -/

/-- `beam.CoGroupByKey` over the two keyed collections: one group per
distinct key, carrying all jpg payloads and all row payloads of that key. -/
def coGroupByKey (jpgs : List (Key × List Nat)) (rows : List (Key × List Nat)) :
    List (Key × List (List Nat) × List (List Nat)) :=
  ((jpgs.map Prod.fst ++ rows.map Prod.fst).dedup).map fun k =>
    (k, ((jpgs.filter fun e => e.1 = k).map Prod.snd,
         (rows.filter fun e => e.1 = k).map Prod.snd))

/-- `beam.Partition`: `n` output collections, element `x` going to
collection `f x`. -/
def beamPartition {α : Type} (f : α → Nat) (n : Nat) (l : List α) :
    List (List α) :=
  (List.range n).map fun i => l.filter fun x => f x = i

/-- The partition function of the source:
`lambda kv, n_split: kv[0][ID_NAMES['view']]`. -/
def partitionFn (kv : Key × List (List Nat) × List (List Nat)) : Nat :=
  (idsTuple kv.1).getD (ID_NAMES.indexOf "view") 0

/-- Append a trailing slash to an output directory when missing
(`if not dir.endswith('/')` in the source). -/
def dirSlash (d : String) : String :=
  if d.data.getLast? = some '/' then d else d ++ "/"

/-- The outputs of one pipeline run.  Each sink is `none` when its
destination argument is absent; each enabled branch carries its own
`Except`, reflecting that the three Beam branches are independent. -/
structure Outputs : Type where
  bq : Option (Except String (List (List (String × BqVal))))
  jpgWrites : Option (Except String (List (String × List Nat)))
  tfFrontal : Option (Except String (List TfExample))
  tfLateral : Option (Except String (List TfExample))

/-- Resize step: `beam.ParDo(ResizeImage(...))` is applied only when an
output image shape is configured (`ResizeImage` itself is external). -/
def applyResize (shape : Option (List Nat)) (resizeFn : List Nat → List Nat)
    (jpgs : List (Key × List Nat)) : List (Key × List Nat) :=
  match shape with
  | some _ => jpgs.map fun e => (e.1, resizeFn e.2)
  | none => jpgs

/-- Key one tar entry through the identifier codec, as
`beam.ParDo(ReadTarFile(), path_to_ids)` does per entry. -/
def tarEntryToJpg (e : String × List Nat) : Except String (Key × List Nat) :=
  (path_to_ids e.1).map fun k => (k, e.2)

/-- `build_and_run_pipeline`.  `glob` models `tf.io.gfile.glob`;
`tarEntries` the (entry name, bytes) pairs produced by the external
`ReadTarFile`, keyed through `path_to_ids` as in the source; `csvLines` the
lines of the label CSV (the first is a skipped header); `resizeFn` the
external `ResizeImage` transform. -/
def build_and_run_pipeline (glob : String → List String)
    (resizeFn : List Nat → List Nat) (input_tars : List String)
    (csvLines : List String) (tarEntries : List (String × List Nat))
    (output_jpg_dir output_bq_table output_tfrecord_dir : Option String)
    (output_image_shape : Option (List Nat)) : Except String Outputs :=
  let input_paths := input_tars.flatMap glob
  if input_paths.isEmpty then .error "No matching tar files were found."
  else
    let rowsE : Except String (List (Key × List Nat)) :=
      (csvLines.drop 1).mapM parse_csv_row
    let jpgsE : Except String (List (Key × List Nat)) :=
      (tarEntries.mapM tarEntryToJpg).map
        (applyResize output_image_shape resizeFn)
    .ok
      { bq := output_bq_table.map fun _ =>
          rowsE.map fun rs => rs.map fun r => to_bigquery_json r.1 r.2
        jpgWrites := output_jpg_dir.map fun d =>
          jpgsE.map fun js => js.map fun e =>
            (dirSlash d ++ ids_to_path e.1, e.2)
        tfFrontal := output_tfrecord_dir.map fun _ =>
          jpgsE.bind fun js => rowsE.bind fun rs =>
            ((beamPartition partitionFn VIEW_VALUES.length
              (coGroupByKey js rs)).getD 0 []).mapM to_tf_example
        tfLateral := output_tfrecord_dir.map fun _ =>
          jpgsE.bind fun js => rowsE.bind fun rs =>
            ((beamPartition partitionFn VIEW_VALUES.length
              (coGroupByKey js rs)).getD 1 []).mapM to_tf_example }

/-! ### Generic helpers about `Except` and `mapM` -/

/-- Whether an `Except` computation succeeded. -/
def isOkE {ε α : Type} : Except ε α → Bool
  | .ok _ => true
  | .error _ => false

theorem except_bind_ok {ε α β : Type} (x : Except ε α) (g : α → Except ε β)
    (b : β) : x >>= g = .ok b ↔ ∃ a, x = .ok a ∧ g a = .ok b := by
  cases x with
  | error e =>
    constructor
    · intro h
      exact absurd h (by simp [Bind.bind, Except.bind])
    · rintro ⟨a, ha, -⟩
      exact absurd ha (by simp)
  | ok a =>
    constructor
    · intro h
      exact ⟨a, rfl, h⟩
    · rintro ⟨a', ha, hg⟩
      simp only [Except.ok.injEq] at ha
      subst ha
      exact hg

theorem mapM_ok_nil {ε α β : Type} (f : α → Except ε β) {l' : List β}
    (h : List.mapM f [] = .ok l') : l' = [] := by
  simp only [List.mapM_nil] at h
  simp only [pure, Except.pure, Except.ok.injEq] at h
  exact h.symm

theorem mapM_ok_cons {ε α β : Type} (f : α → Except ε β) (x : α) (l : List α)
    {l' : List β} (h : List.mapM f (x :: l) = .ok l') :
    ∃ y ys, f x = .ok y ∧ List.mapM f l = .ok ys ∧ l' = y :: ys := by
  rw [List.mapM_cons] at h
  rw [except_bind_ok] at h
  obtain ⟨y, hy, h⟩ := h
  rw [except_bind_ok] at h
  obtain ⟨ys, hys, h⟩ := h
  simp only [pure, Except.pure, Except.ok.injEq] at h
  exact ⟨y, ys, hy, hys, h.symm⟩

theorem mapM_ok_length {ε α β : Type} (f : α → Except ε β) :
    ∀ (l : List α) (l' : List β), List.mapM f l = .ok l' → l'.length = l.length := by
  intro l
  induction l with
  | nil =>
    intro l' h
    rw [mapM_ok_nil f h]
    rfl
  | cons x l ih =>
    intro l' h
    obtain ⟨y, ys, -, hys, rfl⟩ := mapM_ok_cons f x l h
    simp [ih ys hys]

theorem mapM_ok_mem {ε α β : Type} (f : α → Except ε β) :
    ∀ (l : List α) (l' : List β), List.mapM f l = .ok l' →
      ∀ y ∈ l', ∃ x ∈ l, f x = .ok y := by
  intro l
  induction l with
  | nil =>
    intro l' h y hy
    rw [mapM_ok_nil f h] at hy
    exact absurd hy (by simp)
  | cons x l ih =>
    intro l' h y hy
    obtain ⟨y', ys, hy', hys, rfl⟩ := mapM_ok_cons f x l h
    rcases List.mem_cons.mp hy with rfl | hy
    · exact ⟨x, by simp, hy'⟩
    · obtain ⟨x', hx', hfx'⟩ := ih ys hys y hy
      exact ⟨x', by simp [hx'], hfx'⟩

theorem mapM_ok_forward {ε α β : Type} (f : α → Except ε β) :
    ∀ (l : List α) (l' : List β), List.mapM f l = .ok l' →
      ∀ x ∈ l, ∃ y ∈ l', f x = .ok y := by
  intro l
  induction l with
  | nil =>
    intro l' h x hx
    exact absurd hx (by simp)
  | cons z l ih =>
    intro l' h x hx
    obtain ⟨y', ys, hy', hys, rfl⟩ := mapM_ok_cons f z l h
    rcases List.mem_cons.mp hx with rfl | hx
    · exact ⟨y', by simp, hy'⟩
    · obtain ⟨y, hy, hfy⟩ := ih ys hys x hx
      exact ⟨y, by simp [hy], hfy⟩

/-! ### Claim theorems -/

/-- C2: the identifier codec functions are mutually inverse: decoding the
canonical path of any key yields the key back, and for every well-formed
canonical path of the grammar
`{split}/p{patient_id}/s{study_id}/view{image_index}_{view}.jpg` the decoded
key re-encodes to the very same path. -/
theorem C2_path_codec_roundtrip :
    (∀ k : Key, path_to_ids (ids_to_path k) = .ok k) ∧
    (∀ p : String, isCanonicalPath p = true →
      ∃ k, path_to_ids p = .ok k ∧ ids_to_path k = p) :=
  ⟨path_to_ids_ids_to_path, fun _ h => ids_to_path_path_to_ids h⟩

theorem C2_path_codec_roundtrip_witness :
    path_to_ids (ids_to_path ⟨SplitE.valid, 12, 3, 4, ViewE.lateral⟩)
        = .ok ⟨SplitE.valid, 12, 3, 4, ViewE.lateral⟩ ∧
      isCanonicalPath "train/p1/s10/view2_other.jpg" = true ∧
      path_to_ids "train/p1/s10/view2_other.jpg"
        = .ok ⟨SplitE.train, 1, 10, 2, ViewE.other⟩ ∧
      ids_to_path ⟨SplitE.train, 1, 10, 2, ViewE.other⟩
        = "train/p1/s10/view2_other.jpg" := by
  refine ⟨C2_path_codec_roundtrip.1 ⟨SplitE.valid, 12, 3, 4, ViewE.lateral⟩,
    by decide, ?_⟩
  obtain ⟨k, h1, h2⟩ :=
    C2_path_codec_roundtrip.2 "train/p1/s10/view2_other.jpg" (by decide)
  have hk : k = ⟨SplitE.train, 1, 10, 2, ViewE.other⟩ := by
    have h3 : (Except.ok k : Except String Key)
        = .ok ⟨SplitE.train, 1, 10, 2, ViewE.other⟩ := by
      rw [← h1]
      rfl
    injection h3
  subst hk
  exact ⟨h1, h2⟩

/-- C3: `ChexpertConverter.convert` accepts exactly the four raw strings
`''`, `'1.0'`, `'-1.0'`, `'0.0'`, mapping them to the not_mentioned,
positive, uncertain and negative codes, and errors naming the raw string on
every other input. -/
theorem C3_chexpert_convert_total :
    ChexpertConverter.convert "" = .ok LABEL_VALUES_not_mentioned ∧
    ChexpertConverter.convert "1.0" = .ok LABEL_VALUES_positive ∧
    ChexpertConverter.convert "-1.0" = .ok LABEL_VALUES_uncertain ∧
    ChexpertConverter.convert "0.0" = .ok LABEL_VALUES_negative ∧
    ∀ s : String, s ∉ (["", "1.0", "-1.0", "0.0"] : List String) →
      ChexpertConverter.convert s
        = .error ("unrecognized chexpert encoding: " ++ s) := by
  refine ⟨rfl, rfl, rfl, rfl, ?_⟩
  intro s hs
  simp only [List.mem_cons, List.not_mem_nil, or_false, not_or] at hs
  obtain ⟨h1, h2, h3, h4⟩ := hs
  unfold ChexpertConverter.convert chexpert_code_to_index
  rw [if_neg h1, if_neg h2, if_neg h3, if_neg h4]

theorem C3_chexpert_convert_total_witness :
    ("2.0" : String) ∉ (["", "1.0", "-1.0", "0.0"] : List String) ∧
    ChexpertConverter.convert "2.0"
      = .error ("unrecognized chexpert encoding: " ++ "2.0") :=
  ⟨by decide, C3_chexpert_convert_total.2.2.2.2 "2.0" (by decide)⟩

theorem to_tf_example_eq (ids : Key) (jpgs rows : List (List Nat)) :
    to_tf_example (ids, jpgs, rows) =
      if jpgs.length ≠ 1 ∨ rows.length ≠ 1 then
        .error (joinErrorMsg jpgs.length rows.length (ids_to_path ids))
      else
        match build_features (jpgs.headD []) ids (rows.headD []) with
        | .error e => .error e
        | .ok f => .ok ⟨f⟩ := rfl

/-- C1 as stated is false: this (1,1) group — one jpg record whose byte
buffer is empty, one label row of the correct length — passes the
cardinality gate yet the builder raises a record-build error instead of
producing a training record. -/
theorem C1_counterexample :
    [([] : List Nat)].length = 1 ∧
    [[0, 0, 0, 0, 0, 0, 0, 0, 0, 0, 0, 0, 0, 0]].length = 1 ∧
    to_tf_example (⟨SplitE.train, 1, 1, 1, ViewE.frontal⟩, [([] : List Nat)],
        [[0, 0, 0, 0, 0, 0, 0, 0, 0, 0, 0, 0, 0, 0]])
      = .error "RecordBuildError: empty jpg bytes" :=
  ⟨rfl, rfl, rfl⟩

/-- C1 (amended): for every joined group, if both counts are exactly 1 and
the single payload passes the builder's structural checks (non-empty image
bytes and a label vector of the fixed category length) the builder succeeds
with the training record; if the counts differ from (1,1) in any way it
raises the error carrying both observed counts and the key rendered as its
path, never dropping extras. -/
theorem C1_join_cardinality (ids : Key) (jpgs rows : List (List Nat)) :
    (jpgs.length = 1 → rows.length = 1 →
      (jpgs.headD []).isEmpty = false →
      (rows.headD []).length = LABEL_NAMES.length →
      to_tf_example (ids, jpgs, rows)
        = .ok ⟨⟨jpgs.headD [], ids, rows.headD []⟩⟩) ∧
    (jpgs.length ≠ 1 ∨ rows.length ≠ 1 →
      to_tf_example (ids, jpgs, rows)
        = .error (joinErrorMsg jpgs.length rows.length (ids_to_path ids))) := by
  constructor
  · intro h1 h2 h3 h4
    rw [to_tf_example_eq, if_neg (by simp [h1, h2])]
    unfold build_features
    rw [h3]
    simp only [Bool.false_eq_true, if_false]
    rw [if_neg (not_ne_iff.mpr h4)]
  · intro h
    rw [to_tf_example_eq, if_pos h]

theorem C1_join_cardinality_witness :
    to_tf_example (⟨SplitE.train, 1, 1, 1, ViewE.frontal⟩, [[7]],
        [[0, 1, 2, 3, 0, 0, 0, 0, 0, 0, 0, 0, 0, 0]])
      = .ok ⟨⟨[7], ⟨SplitE.train, 1, 1, 1, ViewE.frontal⟩,
          [0, 1, 2, 3, 0, 0, 0, 0, 0, 0, 0, 0, 0, 0]⟩⟩ ∧
    to_tf_example (⟨SplitE.train, 1, 1, 1, ViewE.frontal⟩, [[7], [8]],
        [[0, 1, 2, 3, 0, 0, 0, 0, 0, 0, 0, 0, 0, 0]])
      = .error (joinErrorMsg 2 1
          (ids_to_path ⟨SplitE.train, 1, 1, 1, ViewE.frontal⟩)) :=
  ⟨(C1_join_cardinality _ _ _).1 rfl rfl rfl rfl,
   (C1_join_cardinality _ _ _).2 (by decide)⟩

/-- C6: over a (1,1) joined group the training-record builder fails with a
`RecordBuildError` whenever the image byte buffer is empty or the label
vector length differs from the fixed 14-category count. -/
theorem C6_record_build_error (ids : Key) (bytes labels : List Nat)
    (h : bytes = [] ∨ labels.length ≠ LABEL_NAMES.length) :
    ∃ e, to_tf_example (ids, [bytes], [labels]) = .error e ∧
      (e = "RecordBuildError: empty jpg bytes" ∨
        e = "RecordBuildError: label length mismatch") := by
  rw [to_tf_example_eq, if_neg (by simp)]
  simp only [List.headD_cons]
  by_cases hb : bytes.isEmpty
  · refine ⟨"RecordBuildError: empty jpg bytes", ?_, Or.inl rfl⟩
    unfold build_features
    rw [hb]
    simp
  · have hl : labels.length ≠ LABEL_NAMES.length := by
      rcases h with h | h
      · rw [h] at hb
        exact absurd rfl hb
      · exact h
    refine ⟨"RecordBuildError: label length mismatch", ?_, Or.inr rfl⟩
    unfold build_features
    rw [if_neg (by simp [hb]), if_pos hl]

theorem C6_record_build_error_witness :
    isOkE (to_tf_example (⟨SplitE.train, 1, 1, 1, ViewE.frontal⟩,
      [([] : List Nat)], [([] : List Nat)])) = false := by
  obtain ⟨e, he, -⟩ :=
    C6_record_build_error ⟨SplitE.train, 1, 1, 1, ViewE.frontal⟩ [] []
      (Or.inl rfl)
  rw [he]
  rfl

/-- C4: `parse_csv_row` never reads the informational view column: two label
lines that differ only in their second CSV field parse to identical
results (the key's view comes from the path field alone). -/
theorem C4_view_column_ignored (l1 l2 : String)
    (h0 : (splitCSVLine l1).take 1 = (splitCSVLine l2).take 1)
    (h2 : (splitCSVLine l1).drop 2 = (splitCSVLine l2).drop 2) :
    parse_csv_row l1 = parse_csv_row l2 := by
  have htake : ∀ l : List String, (l.take 1).head? = l.head? := by
    intro l
    cases l <;> rfl
  have hh := congrArg List.head? h0
  rw [htake, htake] at hh
  unfold parse_csv_row
  rw [hh, h2]

theorem C4_view_column_ignored_witness :
    parse_csv_row "train/p1/s1/view1_frontal.jpg,frontal,1.0"
      = parse_csv_row "train/p1/s1/view1_frontal.jpg,GARBAGE VIEW,1.0" :=
  C4_view_column_ignored _ _ (by decide) (by decide)

/-- C9: when the input tar patterns match no files the pipeline constructor
fails up front with the configuration error, before any record is
processed; when at least one file matches, construction proceeds. -/
theorem C9_no_matching_tars (glob : String → List String)
    (resizeFn : List Nat → List Nat) (input_tars csvLines : List String)
    (tarEntries : List (String × List Nat))
    (jd bt td : Option String) (sh : Option (List Nat)) :
    ((input_tars.flatMap glob).isEmpty = true →
      build_and_run_pipeline glob resizeFn input_tars csvLines tarEntries
        jd bt td sh = .error "No matching tar files were found.") ∧
    ((input_tars.flatMap glob).isEmpty = false →
      isOkE (build_and_run_pipeline glob resizeFn input_tars csvLines
        tarEntries jd bt td sh) = true) := by
  constructor
  · intro h
    simp [build_and_run_pipeline, h]
  · intro h
    simp [build_and_run_pipeline, h, isOkE]

theorem C9_no_matching_tars_witness :
    ((["a.tar"].flatMap (fun _ => ([] : List String))).isEmpty = true ∧
      build_and_run_pipeline (fun _ => []) id ["a.tar"] [] [] none none none
        none = .error "No matching tar files were found.") ∧
    ((["a.tar"].flatMap (fun p => [p])).isEmpty = false ∧
      isOkE (build_and_run_pipeline (fun p => [p]) id ["a.tar"] [] [] none
        none none none) = true) :=
  ⟨⟨rfl, (C9_no_matching_tars _ _ _ _ _ _ _ _ _).1 rfl⟩,
   ⟨rfl, (C9_no_matching_tars _ _ _ _ _ _ _ _ _).2 rfl⟩⟩

/-! ### Structure of the BigQuery row dictionary -/

theorem map_fst_zip_take {α β : Type} :
    ∀ (l1 : List α) (l2 : List β), (l1.zip l2).map Prod.fst = l1.take l2.length := by
  intro l1
  induction l1 with
  | nil => intro l2; simp
  | cons x l1 ih =>
    intro l2
    cases l2 with
    | nil => simp
    | cons y l2 => simp [ih]

theorem dictInsert_fresh {d : List (String × BqVal)} {k : String} (v : BqVal)
    (h : ∀ p ∈ d, p.1 ≠ k) : dictInsert d k v = d ++ [(k, v)] := by
  induction d with
  | nil => rfl
  | cons p d ih =>
    have hp : p.1 ≠ k := h p (by simp)
    simp only [dictInsert, if_neg hp, List.cons_append, List.cons.injEq, true_and]
    exact ih fun q hq => h q (by simp [hq])

theorem foldl_dictInsert_append :
    ∀ (l acc : List (String × BqVal)),
      (∀ p ∈ acc, ∀ q ∈ l, p.1 ≠ q.1) → (l.map Prod.fst).Nodup →
      l.foldl (fun d kv => dictInsert d kv.1 kv.2) acc = acc ++ l := by
  intro l
  induction l with
  | nil => intro acc h hn; simp
  | cons kv l ih =>
    intro acc h hn
    rw [List.foldl_cons]
    rw [dictInsert_fresh kv.2 fun p hp => h p hp kv (by simp)]
    rw [List.map_cons, List.nodup_cons] at hn
    rw [ih (acc ++ [kv]) ?_ hn.2]
    · simp
    · intro p hp q hq
      rcases List.mem_append.mp hp with hp | hp
      · exact h p hp q (by simp [hq])
      · have hpkv : p = kv := by
          simpa using hp
        subst hpkv
        intro hcon
        apply hn.1
        rw [hcon]
        exact List.mem_map_of_mem Prod.fst hq

theorem dictOfList_eq_self {l : List (String × BqVal)}
    (hn : (l.map Prod.fst).Nodup) : dictOfList l = l := by
  unfold dictOfList
  rw [foldl_dictInsert_append l [] (by simp) hn]
  rfl

theorem dictLookup_append_right {d1 : List (String × BqVal)} {k : String}
    (d2 : List (String × BqVal)) (h : ∀ p ∈ d1, p.1 ≠ k) :
    dictLookup (d1 ++ d2) k = dictLookup d2 k := by
  induction d1 with
  | nil => rfl
  | cons p d1 ih =>
    have hp : p.1 ≠ k := h p (by simp)
    simp only [List.cons_append, dictLookup, if_neg hp]
    exact ih fun q hq => h q (by simp [hq])

/-- The value of `to_bigquery_json` laid out flat: the label pairs, then the
key pairs, then the path pair (all field names are distinct, so the python
dict updates are plain appends). -/
theorem to_bigquery_json_eq (ids : Key) (row : List Nat) :
    to_bigquery_json ids row =
      ((LABEL_NAMES.zip row).map fun p => (p.1, BqVal.i p.2))
        ++ ((ID_NAMES.zip (idsTuple ids)).map fun p => (p.1, BqVal.i p.2))
        ++ [("path", BqVal.s (ids_to_path ids))] := by
  have hkeysL : ((LABEL_NAMES.zip row).map fun p => (p.1, BqVal.i p.2)).map
      Prod.fst = LABEL_NAMES.take row.length := by
    rw [List.map_map]
    exact map_fst_zip_take LABEL_NAMES row
  have hkeysI : ((ID_NAMES.zip (idsTuple ids)).map fun p => (p.1, BqVal.i p.2)).map
      Prod.fst = ID_NAMES := by
    rw [List.map_map]
    exact map_fst_zip_take ID_NAMES (idsTuple ids)
  have hLnodup : (LABEL_NAMES.take row.length).Nodup := by
    have : (LABEL_NAMES.take row.length).Sublist LABEL_NAMES :=
      List.take_sublist _ _
    exact List.Nodup.sublist this (by decide)
  have hmemL : ∀ p ∈ (LABEL_NAMES.zip row).map fun p => (p.1, BqVal.i p.2),
      p.1 ∈ LABEL_NAMES := by
    intro p hp
    have : p.1 ∈ LABEL_NAMES.take row.length := by
      rw [← hkeysL]
      exact List.mem_map_of_mem Prod.fst hp
    exact List.take_subset _ _ this
  have hmemI : ∀ p ∈ (ID_NAMES.zip (idsTuple ids)).map fun p => (p.1, BqVal.i p.2),
      p.1 ∈ ID_NAMES := by
    intro p hp
    rw [← hkeysI]
    exact List.mem_map_of_mem Prod.fst hp
  show dictInsert ((ID_NAMES.zip (idsTuple ids)).foldl
      (fun d kv => dictInsert d kv.1 (BqVal.i kv.2))
      (dictOfList ((LABEL_NAMES.zip row).map fun p => (p.1, BqVal.i p.2))))
      "path" (BqVal.s (ids_to_path ids)) = _
  rw [dictOfList_eq_self (hkeysL ▸ hLnodup)]
  have hfold : (ID_NAMES.zip (idsTuple ids)).foldl
      (fun d kv => dictInsert d kv.1 (BqVal.i kv.2))
      ((LABEL_NAMES.zip row).map fun p => (p.1, BqVal.i p.2))
      = ((LABEL_NAMES.zip row).map fun p => (p.1, BqVal.i p.2))
        ++ ((ID_NAMES.zip (idsTuple ids)).map fun p => (p.1, BqVal.i p.2)) := by
    rw [← foldl_dictInsert_append _ _ ?_ (hkeysI ▸ (by decide : ID_NAMES.Nodup))]
    · rw [List.foldl_map]
    · intro p hp q hq
      have hpL : p.1 ∈ LABEL_NAMES := hmemL p hp
      have hqI : q.1 ∈ ID_NAMES := hmemI q hq
      intro hcon
      have : ∀ a ∈ LABEL_NAMES, ∀ b ∈ ID_NAMES, a ≠ b := by decide
      exact this p.1 hpL q.1 hqI hcon
  rw [hfold]
  rw [dictInsert_fresh _ ?_]
  intro p hp
  rcases List.mem_append.mp hp with hp | hp
  · have hin := hmemL p hp
    have hall : ∀ a ∈ LABEL_NAMES, a ≠ "path" := by decide
    exact hall p.1 hin
  · have hin := hmemI p hp
    have hall : ∀ a ∈ ID_NAMES, a ≠ "path" := by decide
    exact hall p.1 hin

/-- C8: each parsed label record yields exactly one flat mapping — the label
categories zipped with `LABEL_NAMES`, the key fields zipped with
`ID_NAMES`, plus a `path` field holding the canonical path — and the
tabular branch consumes label records pre-join: its output is unchanged
under any change of the image-record input. -/
theorem C8_bigquery_rows :
    (∀ (ids : Key) (row : List Nat),
      to_bigquery_json ids row =
        ((LABEL_NAMES.zip row).map fun p => (p.1, BqVal.i p.2))
          ++ ((ID_NAMES.zip (idsTuple ids)).map fun p => (p.1, BqVal.i p.2))
          ++ [("path", BqVal.s (ids_to_path ids))]) ∧
    (∀ (glob : String → List String) (resizeFn : List Nat → List Nat)
        (tars lines : List String)
        (entries1 entries2 : List (String × List Nat))
        (jd bt td : Option String) (sh : Option (List Nat)),
      (build_and_run_pipeline glob resizeFn tars lines entries1 jd bt td
          sh).map Outputs.bq
        = (build_and_run_pipeline glob resizeFn tars lines entries2 jd bt td
            sh).map Outputs.bq) := by
  refine ⟨to_bigquery_json_eq, ?_⟩
  intro glob resizeFn tars lines entries1 entries2 jd bt td sh
  by_cases h : (tars.flatMap glob).isEmpty
  · simp [build_and_run_pipeline, h]
  · simp only [Bool.not_eq_true] at h
    simp [build_and_run_pipeline, h, Except.map]

/-- C10: the pre-join tabular branch does no label-count validation: any
line whose path parses yields one code per field after the second, however
few there are, and `to_bigquery_json` silently truncates the zip, omitting
the label columns beyond the vector's length. -/
theorem C10_no_label_count_validation :
    (∀ (line p : String) (k : Key) (codes : List Nat),
      (splitCSVLine line).head? = some p →
      path_to_ids p = .ok k →
      ((splitCSVLine line).drop 2).mapM ChexpertConverter.convert = .ok codes →
      parse_csv_row line = .ok (k, codes) ∧
        codes.length = (splitCSVLine line).length - 2) ∧
    (∀ (ids : Key) (codes : List Nat) (j : Nat),
      codes.length ≤ j → j < LABEL_NAMES.length →
      dictLookup (to_bigquery_json ids codes) (LABEL_NAMES.getD j "") = none) := by
  constructor
  · intro line p k codes hhead hk hm
    constructor
    · have hm2 : List.mapM.loop ChexpertConverter.convert
          ((splitCSVLine line).drop 2) [] = Except.ok codes := hm
      unfold parse_csv_row
      rw [hhead]
      simp [hk, hm2, Bind.bind, Except.bind, pure, Except.pure]
    · have hlen := mapM_ok_length _ _ _ hm
      rw [hlen, List.length_drop]
  · intro ids codes j hle hlt
    have hmem : LABEL_NAMES.getD j "" ∈ LABEL_NAMES := by
      have hgen : ∀ i, i < LABEL_NAMES.length →
          LABEL_NAMES.getD i "" ∈ LABEL_NAMES := by decide
      exact hgen j hlt
    have hnotake : LABEL_NAMES.getD j "" ∉ LABEL_NAMES.take j := by
      have hgen : ∀ i, i < LABEL_NAMES.length →
          LABEL_NAMES.getD i "" ∉ LABEL_NAMES.take i := by decide
      exact hgen j hlt
    rw [to_bigquery_json_eq]
    rw [dictLookup_append_right _ ?_]
    · have hne : "path" ≠ LABEL_NAMES.getD j "" := by
        intro hcon
        have hall : ∀ a ∈ LABEL_NAMES, a ≠ "path" := by decide
        exact hall _ hmem hcon.symm
      simp only [dictLookup, if_neg hne]
    · intro q hq
      rcases List.mem_append.mp hq with hq | hq
      · have hkeys : (((LABEL_NAMES.zip codes).map
            fun p => (p.1, BqVal.i p.2)).map Prod.fst)
            = LABEL_NAMES.take codes.length := by
          rw [List.map_map]
          exact map_fst_zip_take LABEL_NAMES codes
        have hq1 : q.1 ∈ LABEL_NAMES.take codes.length := by
          rw [← hkeys]
          exact List.mem_map_of_mem Prod.fst hq
        have hq2 : q.1 ∈ LABEL_NAMES.take j := by
          have htt : LABEL_NAMES.take codes.length
              = (LABEL_NAMES.take j).take codes.length := by
            rw [List.take_take, Nat.min_eq_left hle]
          rw [htt] at hq1
          exact List.take_subset _ _ hq1
        intro hcon
        rw [hcon] at hq2
        exact hnotake hq2
      · have hkeys : (((ID_NAMES.zip (idsTuple ids)).map
            fun p => (p.1, BqVal.i p.2)).map Prod.fst) = ID_NAMES := by
          rw [List.map_map]
          exact map_fst_zip_take ID_NAMES (idsTuple ids)
        have hq1 : q.1 ∈ ID_NAMES := by
          rw [← hkeys]
          exact List.mem_map_of_mem Prod.fst hq
        intro hcon
        have hall : ∀ a ∈ LABEL_NAMES, ∀ b ∈ ID_NAMES, a ≠ b := by decide
        exact hall _ hmem _ hq1 hcon.symm

theorem C10_no_label_count_validation_witness :
    (parse_csv_row "train/p1/s1/view1_frontal.jpg,whatever"
        = .ok (⟨SplitE.train, 1, 1, 1, ViewE.frontal⟩, []) ∧
      ([] : List Nat).length
        = (splitCSVLine "train/p1/s1/view1_frontal.jpg,whatever").length - 2) ∧
    dictLookup (to_bigquery_json ⟨SplitE.train, 1, 1, 1, ViewE.frontal⟩ [])
      (LABEL_NAMES.getD 0 "") = none :=
  ⟨C10_no_label_count_validation.1 "train/p1/s1/view1_frontal.jpg,whatever"
      "train/p1/s1/view1_frontal.jpg" ⟨SplitE.train, 1, 1, 1, ViewE.frontal⟩
      [] rfl rfl rfl,
   C10_no_label_count_validation.2 ⟨SplitE.train, 1, 1, 1, ViewE.frontal⟩ []
      0 (by decide) (by decide)⟩

/-! ### Partitioning (C5) -/

theorem partitionFn_eq (kv : Key × List (List Nat) × List (List Nat)) :
    partitionFn kv = kv.1.view.val := rfl

theorem view_val_lt (v : ViewE) : v.val < VIEW_VALUES.length := by
  cases v <;> decide

theorem beamPartition_length {α : Type} (f : α → Nat) (n : Nat) (l : List α) :
    (beamPartition f n l).length = n := by
  simp [beamPartition]

theorem beamPartition_getD {α : Type} (f : α → Nat) (n : Nat) (l : List α)
    (i : Nat) (h : i < n) :
    (beamPartition f n l).getD i [] = l.filter fun x => f x = i := by
  unfold beamPartition
  rw [List.getD_eq_getElem?_getD, List.getElem?_map, List.getElem?_range h]
  rfl

theorem count_filter_decide {α : Type} [BEq α] [LawfulBEq α] (f : α → Nat)
    (i : Nat) (g : α) : ∀ l : List α,
      (l.filter fun x => f x = i).count g = if f g = i then l.count g else 0 := by
  intro l
  induction l with
  | nil => simp
  | cons x l ih =>
    by_cases hx : f x = i
    · rw [List.filter_cons_of_pos (by simp [hx])]
      simp only [List.count_cons, ih]
      by_cases hgi : f g = i
      · simp [hgi]
      · have hne : ¬ x = g := fun hcon => hgi (hcon ▸ hx)
        simp [hgi, hne]
    · rw [List.filter_cons_of_neg (by simp [hx])]
      rw [ih]
      by_cases hgi : f g = i
      · have hne : ¬ x = g := fun hcon => hx (by rw [hcon]; exact hgi)
        simp [List.count_cons, hgi, hne]
      · simp [hgi]

theorem sum_range_ite (c : Nat) :
    ∀ n v : Nat, ((List.range n).map fun i => if v = i then c else 0).sum
      = if v < n then c else 0 := by
  intro n
  induction n with
  | zero => intro v; simp
  | succ n ih =>
    intro v
    rw [List.range_succ, List.map_append, List.sum_append, ih]
    by_cases h1 : v < n
    · have h2 : v ≠ n := by omega
      simp [h1, h2, Nat.lt_succ_of_lt h1]
    · by_cases h2 : v = n
      · simp [h1, h2]
      · have h3 : ¬ v < n + 1 := by omega
        simp [h1, h2, h3]

/-- C5: the partition step declares as many partitions as the view
enumeration has values; every joined group lands in exactly the partition
indexed by its key's view enumeration value; and counting over all
partitions reproduces the joined collection exactly — nothing is dropped or
duplicated. -/
theorem C5_partition_totality (jpgs rows : List (Key × List Nat)) :
    (beamPartition partitionFn VIEW_VALUES.length
        (coGroupByKey jpgs rows)).length = VIEW_VALUES.length ∧
    (∀ g ∈ coGroupByKey jpgs rows, ∀ i, i < VIEW_VALUES.length →
      (g ∈ (beamPartition partitionFn VIEW_VALUES.length
          (coGroupByKey jpgs rows)).getD i [] ↔ i = g.1.view.val)) ∧
    (∀ g, ((beamPartition partitionFn VIEW_VALUES.length
        (coGroupByKey jpgs rows)).map fun part => part.count g).sum
      = (coGroupByKey jpgs rows).count g) := by
  refine ⟨beamPartition_length _ _ _, ?_, ?_⟩
  · intro g hg i hi
    rw [beamPartition_getD _ _ _ i hi]
    rw [List.mem_filter]
    constructor
    · rintro ⟨-, hfg⟩
      have := of_decide_eq_true hfg
      rw [partitionFn_eq] at this
      exact this.symm
    · intro hig
      refine ⟨hg, ?_⟩
      rw [decide_eq_true_eq, partitionFn_eq]
      exact hig.symm
  · intro g
    unfold beamPartition
    rw [List.map_map]
    have hpt : ∀ i : Nat,
        (((coGroupByKey jpgs rows).filter fun x => partitionFn x = i).count g)
          = if partitionFn g = i then (coGroupByKey jpgs rows).count g else 0 :=
      fun i => count_filter_decide partitionFn i g (coGroupByKey jpgs rows)
    calc ((List.range VIEW_VALUES.length).map
            ((fun part => part.count g) ∘ fun i =>
              (coGroupByKey jpgs rows).filter fun x => partitionFn x = i)).sum
        = ((List.range VIEW_VALUES.length).map fun i =>
            if partitionFn g = i then (coGroupByKey jpgs rows).count g
            else 0).sum := by
          rw [List.map_congr_left]
          intro i hi
          exact hpt i
      _ = (coGroupByKey jpgs rows).count g := by
          rw [sum_range_ite]
          rw [if_pos]
          rw [partitionFn_eq]
          exact view_val_lt g.1.view

theorem C5_partition_totality_witness :
    ((⟨SplitE.train, 1, 1, 1, ViewE.frontal⟩, [[9]], [[0]]) ∈
      (beamPartition partitionFn VIEW_VALUES.length
        (coGroupByKey [(⟨SplitE.train, 1, 1, 1, ViewE.frontal⟩, [9])]
          [(⟨SplitE.train, 1, 1, 1, ViewE.frontal⟩, [0])])).getD 0 []) ∧
    (beamPartition partitionFn VIEW_VALUES.length
      (coGroupByKey [(⟨SplitE.train, 1, 1, 1, ViewE.frontal⟩, [9])]
        [(⟨SplitE.train, 1, 1, 1, ViewE.frontal⟩, [0])])).length
      = VIEW_VALUES.length := by
  constructor
  · exact ((C5_partition_totality _ _).2.1 _ (by decide) 0 (by decide)).mpr rfl
  · exact (C5_partition_totality _ _).1

/-! ### The per-view fan-out (C7) -/

theorem except_map_ok {ε α β : Type} (f : α → β) (x : Except ε α) (b : β) :
    Except.map f x = .ok b ↔ ∃ a, x = .ok a ∧ f a = b := by
  cases x with
  | error e =>
    simp [Except.map]
  | ok a =>
    simp [Except.map, eq_comm]

theorem except_bind_ok2 {ε α β : Type} (x : Except ε α) (g : α → Except ε β)
    (b : β) : Except.bind x g = .ok b ↔ ∃ a, x = .ok a ∧ g a = .ok b :=
  except_bind_ok x g b

theorem build_features_ok_ids {bytes : List Nat} {ids : Key}
    {labels : List Nat} {f : Features}
    (h : build_features bytes ids labels = .ok f) : f.ids = ids := by
  unfold build_features at h
  by_cases h1 : bytes.isEmpty
  · rw [if_pos h1] at h
    exact absurd h (by simp)
  · rw [if_neg h1] at h
    by_cases h2 : labels.length ≠ LABEL_NAMES.length
    · rw [if_pos h2] at h
      exact absurd h (by simp)
    · rw [if_neg h2] at h
      simp only [Except.ok.injEq] at h
      rw [← h]

theorem to_tf_example_ok_ids {g : Key × List (List Nat) × List (List Nat)}
    {ex : TfExample} (h : to_tf_example g = .ok ex) : ex.features.ids = g.1 := by
  obtain ⟨ids, jpgs, rows⟩ := g
  rw [to_tf_example_eq] at h
  by_cases hc : jpgs.length ≠ 1 ∨ rows.length ≠ 1
  · rw [if_pos hc] at h
    exact absurd h (by simp)
  · rw [if_neg hc] at h
    rcases hbf : build_features (jpgs.headD []) ids (rows.headD []) with e | f
    · rw [hbf] at h
      exact absurd h (by simp)
    · rw [hbf] at h
      simp only [Except.ok.injEq] at h
      rw [← h]
      exact build_features_ok_ids hbf

/-- The bytes a single image record carries after the optional resize. -/
def resizedBytes (sh : Option (List Nat)) (resizeFn : List Nat → List Nat)
    (b : List Nat) : List Nat :=
  match sh with
  | some _ => resizeFn b
  | none => b

set_option maxHeartbeats 1600000 in
/-- C7: a joined group whose view is `other` reaches neither TFRecord sink
— no training record with its key is ever built for the frontal or lateral
shard — while its image record still reaches the blob sink and its label
row still reaches the tabular sink whenever those are enabled. -/
theorem C7_other_view_excluded (glob : String → List String)
    (resizeFn : List Nat → List Nat) (tars lines : List String)
    (entries : List (String × List Nat)) (jd bt td : Option String)
    (sh : Option (List Nat)) (out : Outputs)
    (hout : build_and_run_pipeline glob resizeFn tars lines entries jd bt td
      sh = .ok out) (k : Key) (hk : k.view = ViewE.other) :
    (∀ l, out.tfFrontal = some (.ok l) → ∀ ex ∈ l, ex.features.ids ≠ k) ∧
    (∀ l, out.tfLateral = some (.ok l) → ∀ ex ∈ l, ex.features.ids ≠ k) ∧
    (∀ d ws p b, jd = some d → out.jpgWrites = some (.ok ws) →
      (p, b) ∈ entries → path_to_ids p = .ok k →
      (dirSlash d ++ ids_to_path k, resizedBytes sh resizeFn b) ∈ ws) ∧
    (∀ rs line kl, bt.isSome = true → out.bq = some (.ok rs) →
      line ∈ lines.drop 1 → parse_csv_row line = .ok (k, kl) →
      to_bigquery_json k kl ∈ rs) := by
  by_cases hglob : (tars.flatMap glob).isEmpty = true
  · exfalso
    simp only [build_and_run_pipeline] at hout
    rw [if_pos hglob] at hout
    exact absurd hout (by simp)
  · have hglob2 : (tars.flatMap glob).isEmpty = false := by
      simpa using hglob
    simp only [build_and_run_pipeline] at hout
    rw [hglob2] at hout
    simp only [Bool.false_eq_true, if_false, Except.ok.injEq] at hout
    subst hout
    refine ⟨?_, ?_, ?_, ?_⟩
    · intro l hl ex hex
      cases td with
      | none => exact absurd hl (by simp)
      | some t =>
        simp only [Option.map_some', Option.some.injEq] at hl
        rw [except_bind_ok2] at hl
        obtain ⟨js, hjs, hl⟩ := hl
        rw [except_bind_ok2] at hl
        obtain ⟨rs, hrs, hl⟩ := hl
        obtain ⟨g, hg, hgex⟩ := mapM_ok_mem _ _ _ hl ex hex
        rw [beamPartition_getD _ _ _ 0 (by decide)] at hg
        obtain ⟨-, hf⟩ := List.mem_filter.mp hg
        have hval : g.1.view.val = 0 := by
          have hd := of_decide_eq_true hf
          rw [partitionFn_eq] at hd
          exact hd
        have hids := to_tf_example_ok_ids hgex
        intro hcon
        have hk1 : g.1 = k := by
          rw [← hids, hcon]
        rw [hk1, hk] at hval
        exact absurd hval (by decide)
    · intro l hl ex hex
      cases td with
      | none => exact absurd hl (by simp)
      | some t =>
        simp only [Option.map_some', Option.some.injEq] at hl
        rw [except_bind_ok2] at hl
        obtain ⟨js, hjs, hl⟩ := hl
        rw [except_bind_ok2] at hl
        obtain ⟨rs, hrs, hl⟩ := hl
        obtain ⟨g, hg, hgex⟩ := mapM_ok_mem _ _ _ hl ex hex
        rw [beamPartition_getD _ _ _ 1 (by decide)] at hg
        obtain ⟨-, hf⟩ := List.mem_filter.mp hg
        have hval : g.1.view.val = 1 := by
          have hd := of_decide_eq_true hf
          rw [partitionFn_eq] at hd
          exact hd
        have hids := to_tf_example_ok_ids hgex
        intro hcon
        have hk1 : g.1 = k := by
          rw [← hids, hcon]
        rw [hk1, hk] at hval
        exact absurd hval (by decide)
    · intro d ws p b hjd hws hpmem hpk
      subst hjd
      simp only [Option.map_some', Option.some.injEq] at hws
      rw [except_map_ok] at hws
      obtain ⟨js, hjs, hwseq⟩ := hws
      rw [except_map_ok] at hjs
      obtain ⟨js0, hjs0, hresize⟩ := hjs
      obtain ⟨y, hy, hfy⟩ := mapM_ok_forward _ _ _ hjs0 (p, b) hpmem
      simp only [tarEntryToJpg] at hfy
      rw [hpk] at hfy
      simp only [Except.map, Except.ok.injEq] at hfy
      subst hfy
      subst hwseq
      cases sh with
      | none =>
        have hjs1 : js0 = js := hresize
        subst hjs1
        exact List.mem_map.mpr ⟨(k, b), hy, rfl⟩
      | some shape =>
        have hjs1 : js0.map (fun e => (e.1, resizeFn e.2)) = js := hresize
        subst hjs1
        have hmem2 : (k, resizeFn b) ∈ js0.map fun e => (e.1, resizeFn e.2) :=
          List.mem_map.mpr ⟨(k, b), hy, rfl⟩
        exact List.mem_map.mpr ⟨(k, resizeFn b), hmem2, rfl⟩
    · intro rs line kl hbt hbq hline hparse
      cases bt with
      | none => exact absurd hbt (by simp)
      | some t =>
        simp only [Option.map_some', Option.some.injEq] at hbq
        rw [except_map_ok] at hbq
        obtain ⟨rs0, hrs0, hrseq⟩ := hbq
        obtain ⟨y, hy, hfy⟩ := mapM_ok_forward _ _ _ hrs0 line hline
        rw [hparse] at hfy
        simp only [Except.ok.injEq] at hfy
        subst hfy
        subst hrseq
        exact List.mem_map.mpr ⟨(k, kl), hy, rfl⟩

set_option maxHeartbeats 4000000 in
theorem C7_other_view_excluded_witness :
    ("out/train/p1/s1/view1_other.jpg", ([5] : List Nat)) ∈
      [("out/train/p1/s1/view1_other.jpg", ([5] : List Nat))] ∧
    to_bigquery_json ⟨SplitE.train, 1, 1, 1, ViewE.other⟩ [0] ∈
      [[("No Finding", BqVal.i 0), ("split", BqVal.i 0),
        ("patient_id", BqVal.i 1), ("study_id", BqVal.i 1),
        ("image_index", BqVal.i 1), ("view", BqVal.i 2),
        ("path", BqVal.s "train/p1/s1/view1_other.jpg")]] := by
  have hout : build_and_run_pipeline (fun p => [p]) id ["t.tar"]
      ["header", "train/p1/s1/view1_other.jpg,other,"]
      [("train/p1/s1/view1_other.jpg", [5])]
      (some "out") (some "proj:d.t") (some "tf") none
      = .ok ⟨some (.ok [[("No Finding", BqVal.i 0), ("split", BqVal.i 0),
          ("patient_id", BqVal.i 1), ("study_id", BqVal.i 1),
          ("image_index", BqVal.i 1), ("view", BqVal.i 2),
          ("path", BqVal.s "train/p1/s1/view1_other.jpg")]]),
        some (.ok [("out/train/p1/s1/view1_other.jpg", [5])]),
        some (.ok []), some (.ok [])⟩ := rfl
  obtain ⟨-, -, hjpg, hbq⟩ := C7_other_view_excluded _ _ _ _ _ _ _ _ _ _ hout
    ⟨SplitE.train, 1, 1, 1, ViewE.other⟩ rfl
  constructor
  · exact hjpg "out" [("out/train/p1/s1/view1_other.jpg", [5])]
      "train/p1/s1/view1_other.jpg" [5] rfl rfl (by simp) rfl
  · exact hbq [[("No Finding", BqVal.i 0), ("split", BqVal.i 0),
        ("patient_id", BqVal.i 1), ("study_id", BqVal.i 1),
        ("image_index", BqVal.i 1), ("view", BqVal.i 2),
        ("path", BqVal.s "train/p1/s1/view1_other.jpg")]]
      "train/p1/s1/view1_other.jpg,other," [0] rfl rfl (by simp) rfl
